import Mathlib

set_option maxRecDepth 8000

/-!
Shallow embedding of `scenario/post_processing/utils/visualization.py`:
a numeric-index file sorter (`get_sorted_files`) and a render loop
(`create_movie_from_vtk`) that samples sorted snapshot files, renders each
sampled one to a temporary still image, and hands the image list to a
video encoder.  External collaborators (mesh reader, plotter, encoder)
are modelled as event-emitting steps whose failures are injected by an
oracle.
-/

/-- Exceptions raised by the Python code: `IOError` for a missing
directory, `ValueError` for a failed `int()` parse (or an empty split
separator), `ZeroDivisionError` for a zero modulus, and collaborator
failures (mesh read, mesh add, screenshot, encode). -/
inductive Err where
  | notFound
  | valueError
  | zeroDivision
  | readError
  | meshError
  | screenshotError
  | encodeError
deriving DecidableEq, Repr

/-- A directory as seen by `os.path.exists` and `os.scandir`: whether the
path exists, and the entry names in enumeration order. -/
structure FS where
  exists_ : Bool
  entries : List String
deriving DecidableEq, Repr

/-- CPython `pathlib`: position of the last dot of a file name when it
yields a suffix; `i = name.rfind('.')` is used only when
`0 < i < len(name) - 1`. -/
def suffixDotIdx (cs : List Char) : Option Nat :=
  match cs.reverse.findIdx? (fun c => c = '.') with
  | none => none
  | some j =>
    let i := cs.length - 1 - j
    if 0 < i ∧ i < cs.length - 1 then some i else none

/-- `pathlib.Path(name).suffix`. -/
def pySuffix (name : String) : String :=
  match suffixDotIdx name.toList with
  | none => ""
  | some i => String.mk (name.toList.drop i)

/-- `pathlib.Path(name).stem`. -/
def pyStem (name : String) : String :=
  match suffixDotIdx name.toList with
  | none => name
  | some i => String.mk (name.toList.take i)

/-- ASCII whitespace stripped by CPython `int()`. -/
def isPySpace (c : Char) : Bool :=
  c = ' ' || c = '\t' || c = '\n' || c = '\r' || c = '\x0b' || c = '\x0c'

def isPyDigit (c : Char) : Bool := '0' ≤ c && c ≤ '9'

def digitVal (c : Char) : Nat := c.toNat - 48

/-- Digits of an `int()` literal after the first one: CPython allows a
single underscore between two digits. -/
def pyIntRest : Nat → List Char → Option Nat
  | acc, [] => some acc
  | acc, '_' :: c :: rest =>
    if isPyDigit c then pyIntRest (acc * 10 + digitVal c) rest else none
  | _, ['_'] => none
  | acc, c :: rest =>
    if isPyDigit c then pyIntRest (acc * 10 + digitVal c) rest else none

def pyIntStart : List Char → Option Nat
  | [] => none
  | c :: rest => if isPyDigit c then pyIntRest (digitVal c) rest else none

/-- CPython `int(s)`: strip ASCII whitespace, optional sign, then decimal
digits with optional single underscores between digits. -/
def pyInt? (s : String) : Option Int :=
  let cs := ((s.toList.dropWhile isPySpace).reverse.dropWhile isPySpace).reverse
  match cs with
  | '-' :: rest => (pyIntStart rest).map (fun n => -(n : Int))
  | '+' :: rest => (pyIntStart rest).map (fun n => (n : Int))
  | _ => (pyIntStart cs).map (fun n => (n : Int))

/-- Does `sep` occur at the head of the list? -/
def sepAt : List Char → List Char → Bool
  | [], _ => true
  | _ :: _, [] => false
  | c :: cs, d :: ds => c = d && sepAt cs ds

/-- Worker for Python `str.split(sep)` with nonempty `sep`: left-to-right,
non-overlapping, keeping empty segments.  The fuel argument only makes the
recursion structural; it never runs out when it starts at `length + 1`
because every step consumes at least one character. -/
def pySplitAux (sep : List Char) : Nat → List Char → List Char → List (List Char)
  | 0, s, cur => [cur.reverse ++ s]
  | _ + 1, [], cur => [cur.reverse]
  | fuel + 1, c :: rest, cur =>
    if sepAt sep (c :: rest) then
      cur.reverse :: pySplitAux sep fuel (List.drop sep.length (c :: rest)) []
    else
      pySplitAux sep fuel rest (c :: cur)

/-- Python `s.split(sep)` for nonempty `sep`, over character lists. -/
def pySplit (sep s : List Char) : List (List Char) :=
  pySplitAux sep (s.length + 1) s []

/-- `get_alphanum_key` from the source: split the file stem on
`split_token`, take the last segment, parse it with `int`.  `none` models
the `ValueError` raised by `int` (also raised by `str.split` itself when
the separator is empty). -/
def get_alphanum_key (split_token : String) (name : String) : Option Int :=
  if split_token = "" then none
  else pyInt? (String.mk ((pySplit split_token.toList (pyStem name).toList).getLastD []))

/-- Stable insertion of a keyed entry: an entry is placed before the first
already-present entry of strictly larger-or-equal key, so earlier-listed
entries stay first among equal keys, as with Python `sorted`. -/
def insertK (x : Int × String) : List (Int × String) → List (Int × String)
  | [] => [x]
  | y :: ys => if x.1 ≤ y.1 then x :: y :: ys else y :: insertK x ys

/-- Stable ascending sort by key, modelling `sorted(files, key=...)`. -/
def sortK : List (Int × String) → List (Int × String)
  | [] => []
  | x :: xs => insertK x (sortK xs)

/-- Filesystem calls made by `get_sorted_files`, recorded in order. -/
inductive FsOp where
  | existsCheck
  | scandir
deriving DecidableEq, Repr

/-- The scandir entries whose `pathlib` suffix equals `file_format`
exactly (the list comprehension in the source). -/
def filteredEntries (data_dir : FS) (file_format : String) : List String :=
  data_dir.entries.filter (fun f => pySuffix f == file_format)

/-- Apply `g` to every element, stopping at the first failure: the
decorate step of `sorted`, which evaluates the key function on each
element and propagates the first exception. -/
def mapKeys {α β : Type} (g : α → Option β) : List α → Option (List β)
  | [] => some []
  | f :: fs =>
    match g f with
    | none => none
    | some p =>
      match mapKeys g fs with
      | none => none
      | some ps => some (p :: ps)

/-- The filtered entries decorated with their sort keys, as computed by
`sorted(files, key=get_alphanum_key)`: `none` when `get_alphanum_key`
raises on some entry. -/
def keyedEntries (data_dir : FS) (file_format split_token : String) :
    Option (List (Int × String)) :=
  mapKeys (fun f => (get_alphanum_key split_token f).map (fun k => (k, f)))
    (filteredEntries data_dir file_format)

/-- `get_sorted_files`, instrumented with the filesystem calls it makes.
Mirrors the source: `os.path.exists` check first, then `os.scandir`,
suffix filter, and a stable sort keyed by `get_alphanum_key` (a `none`
key is the `ValueError` raised while `sorted` computes the keys). -/
def get_sorted_filesT (data_dir : FS) (file_format split_token : String) :
    Except Err (List String) × List FsOp :=
  if data_dir.exists_ = false then (.error .notFound, [.existsCheck])
  else
    match keyedEntries data_dir file_format split_token with
    | none => (.error .valueError, [.existsCheck, .scandir])
    | some keyed => (.ok ((sortK keyed).map Prod.snd), [.existsCheck, .scandir])

/-- `get_sorted_files`: the returned value (file names in sorted order). -/
def get_sorted_files (data_dir : FS) (file_format split_token : String) :
    Except Err (List String) :=
  (get_sorted_filesT data_dir file_format split_token).1

instance {ε α : Type} [DecidableEq ε] [DecidableEq α] : DecidableEq (Except ε α) := fun x y =>
  match x, y with
  | .ok a, .ok b =>
    if h : a = b then .isTrue (congrArg Except.ok h)
    else .isFalse (fun hc => h (by cases hc; rfl))
  | .error e, .error f =>
    if h : e = f then .isTrue (congrArg Except.error h)
    else .isFalse (fun hc => h (by cases hc; rfl))
  | .ok _, .error _ => .isFalse (fun hc => by cases hc)
  | .error _, .ok _ => .isFalse (fun hc => by cases hc)

/-- Round half to even, Python's `round` on an exact rational value.  For
`60 / fps` with integer `1 ≤ fps ≤ 120` the binary float computed by the
source and the exact rational round to the same integer (the only
half-integer cases, `fps ∈ {8, 24, 40, 120}`, are exactly representable),
so the rational model is faithful on the relevant domain. -/
def roundHalfEven (q : ℚ) : ℤ :=
  if q - ⌊q⌋ < 1/2 then ⌊q⌋
  else if 1/2 < q - ⌊q⌋ then ⌊q⌋ + 1
  else if Even ⌊q⌋ then ⌊q⌋ else ⌊q⌋ + 1

/-- `int(round(60 / fps))`, the sampling stride of the frame loop, written
with integer arithmetic so that the kernel can evaluate it;
`stride_eq_roundHalfEven` proves it equal to round-half-even of the exact
ratio `60 / fps`.  With `fps = 0` the source raises ZeroDivisionError at
the division itself; the model yields stride `0` and the loop below
raises the same ZeroDivisionError at the modulus instead, so the
observable outcome (an immediate ZeroDivisionError) agrees. -/
def stride (fps : ℕ) : ℕ :=
  if fps = 0 then 0
  else if 2 * (60 % fps) < fps then 60 / fps
  else if fps < 2 * (60 % fps) then 60 / fps + 1
  else if (60 / fps) % 2 = 0 then 60 / fps else 60 / fps + 1

/-- `posixpath.join` restricted to two components, as used by the source
via `os.path.join`. -/
def pyJoin (a b : String) : String :=
  if b.toList.head? = some '/' then b
  else if a = "" ∨ a.toList.getLast? = some '/' then a ++ b
  else a ++ "/" ++ b

/-- `str(n)` for a nonnegative Python int, as a big-endian decimal digit
list.  The fuel argument only makes the recursion structural; starting at
`n + 1` it never runs out. -/
def pyStrAux : Nat → Nat → List Nat → List Nat
  | 0, n, acc => n :: acc
  | fuel + 1, n, acc =>
    if n < 10 then n :: acc else pyStrAux fuel (n / 10) (n % 10 :: acc)

/-- `str(n)`: decimal digits of `n`, big-endian, `[0]` for `0`. -/
def pyStr (n : Nat) : List Nat :=
  pyStrAux (n + 1) n []

/-- `str.zfill(w)` on an unsigned decimal string, as a digit list. -/
def pyZfill (w : Nat) (ds : List Nat) : List Nat :=
  List.replicate (w - ds.length) 0 ++ ds

def digitChar (d : Nat) : Char := Char.ofNat (48 + d)

/-- The temporary still-image file name `"frame_" + str(index).zfill(5) + ".png"`. -/
def imageName (index : Nat) : String :=
  "frame_" ++ String.mk ((pyZfill 5 (pyStr index)).map digitChar) ++ ".png"

/-- `os.path.join(tmp_dir, "frame_" + str(index).zfill(5) + ".png")`. -/
def imagePath (tmp_dir : String) (index : Nat) : String :=
  pyJoin tmp_dir (imageName index)

/-- Failure injection for the external collaborators: whether `pv.read`,
`plt.add_mesh` or `plt.screenshot` raises at a given frame index, and
whether video encoding raises. -/
structure Oracle where
  readFails : Nat → Bool
  addMeshFails : Nat → Bool
  screenshotFails : Nat → Bool
  encodeFails : Bool

/-- The all-success oracle: no collaborator ever raises. -/
def okOracle : Oracle :=
  ⟨fun _ => false, fun _ => false, fun _ => false, false⟩

/-- Observable steps of `create_movie_from_vtk`, in program order. -/
inductive Event where
  | startXvfb
  | setBackground
  | plotterAcquire
  | setCamera
  | tmpDirCreate
  | readMesh (path : String)
  | addMesh (index : Nat)
  | screenshot (path : String)
  | plotterClose
  | encode (frames : List String) (fps : Nat)
  | writeVideo (path : String)
  | tmpDirRemove
deriving DecidableEq, Repr

/-- Outcome of the `for index, frame_file in enumerate(vtk_files)` loop:
events emitted, the `frames` list built, and the first exception. -/
structure LoopOut where
  trace : List Event
  frames : List String
  err : Option Err
deriving DecidableEq, Repr

/-- The frame loop.  Each iteration evaluates `index % int(round(60/fps))`
(raising ZeroDivisionError when the stride is zero), and on a sampled
index computes both paths, reads the mesh, replaces the single named mesh
actor, and captures a screenshot, any of which may raise. -/
def renderLoop (o : Oracle) (vtk_output_dir tmp_dir : String) (fps : ℕ) :
    Nat → List String → LoopOut
  | _, [] => ⟨[], [], none⟩
  | index, frame_file :: rest =>
    if stride fps = 0 then ⟨[], [], some .zeroDivision⟩
    else if index % stride fps = 0 then
      let frame_path := pyJoin vtk_output_dir (pyJoin vtk_output_dir frame_file)
      let image_frame_path := imagePath tmp_dir index
      if o.readFails index then ⟨[.readMesh frame_path], [], some .readError⟩
      else if o.addMeshFails index then
        ⟨[.readMesh frame_path, .addMesh index], [], some .meshError⟩
      else if o.screenshotFails index then
        ⟨[.readMesh frame_path, .addMesh index], [], some .screenshotError⟩
      else
        let out := renderLoop o vtk_output_dir tmp_dir fps (index + 1) rest
        ⟨.readMesh frame_path :: .addMesh index :: .screenshot image_frame_path :: out.trace,
          image_frame_path :: out.frames, out.err⟩
    else
      renderLoop o vtk_output_dir tmp_dir fps (index + 1) rest

/-- Result of one `create_movie_from_vtk` call: the event trace and the
returned value (`()` or the propagated exception). -/
structure RunResult where
  trace : List Event
  result : Except Err Unit
deriving DecidableEq, Repr

/-- Events before the listing: `pv.start_xvfb()` when a virtual display
is requested, then the background assignment. -/
def preTrace (virtual_display : Bool) : List Event :=
  (if virtual_display then [Event.startXvfb] else []) ++ [Event.setBackground]

/-- Events between a successful listing and the first loop iteration:
plotter construction, camera assignment, temporary-directory creation. -/
def pre2Trace (virtual_display : Bool) : List Event :=
  preTrace virtual_display ++ [Event.plotterAcquire, Event.setCamera, Event.tmpDirCreate]

/-- `create_movie_from_vtk`.  Mirrors the source line by line: optional
xvfb start, background set, `get_sorted_files`, plotter construction and
camera set, `with tempfile.TemporaryDirectory()` (whose exit hook removes
the directory on every path out of the block), the frame loop,
`plt.close()` only after the loop completes, then encoder construction
and `write_videofile`.  `tmp_dir` stands for the fresh temporary
directory name chosen by the library. -/
def create_movie_from_vtk (fs : FS) (vtk_output_dir movie_path : String)
    (virtual_display : Bool) (fps : ℕ) (tmp_dir : String) (o : Oracle) : RunResult :=
  match (get_sorted_filesT fs ".vtk" "_").1 with
  | .error e => ⟨preTrace virtual_display, .error e⟩
  | .ok vtk_files =>
    match (renderLoop o vtk_output_dir tmp_dir fps 0 vtk_files).err with
    | some e =>
      ⟨pre2Trace virtual_display ++ (renderLoop o vtk_output_dir tmp_dir fps 0 vtk_files).trace ++
          [Event.tmpDirRemove],
        .error e⟩
    | none =>
      if o.encodeFails then
        ⟨pre2Trace virtual_display ++ (renderLoop o vtk_output_dir tmp_dir fps 0 vtk_files).trace ++
            [Event.plotterClose,
              Event.encode (renderLoop o vtk_output_dir tmp_dir fps 0 vtk_files).frames fps,
              Event.tmpDirRemove],
          .error .encodeError⟩
      else
        ⟨pre2Trace virtual_display ++ (renderLoop o vtk_output_dir tmp_dir fps 0 vtk_files).trace ++
            [Event.plotterClose,
              Event.encode (renderLoop o vtk_output_dir tmp_dir fps 0 vtk_files).frames fps,
              Event.writeVideo movie_path, Event.tmpDirRemove],
          .ok ()⟩

/-- Temporary still-image files present after a trace: `plt.screenshot`
creates one, removing the temporary directory deletes them all. -/
def tmpFilesAfter (trace : List Event) : List String :=
  trace.foldl
    (fun acc e =>
      match e with
      | .screenshot p => acc ++ [p]
      | .tmpDirRemove => []
      | _ => acc)
    []

/-- Frame indices actually rendered in a trace. -/
def renderedIndices (trace : List Event) : List Nat :=
  trace.filterMap (fun e => match e with | .addMesh i => some i | _ => none)

/-- The encoder invocations in a trace, with their arguments. -/
def encodeCalls (trace : List Event) : List (List String × Nat) :=
  trace.filterMap (fun e => match e with | .encode fr fps => some (fr, fps) | _ => none)

/-- The claim-side sampling law: the 0-based positions `p < n` with
`p % stride fps == 0`. -/
def sampledPositions (n fps : ℕ) : List ℕ :=
  (List.range n).filter (fun p => p % stride fps == 0)

/-- Events that the frame loop itself can emit. -/
def isLoopEvent : Event → Bool
  | .readMesh _ => true
  | .addMesh _ => true
  | .screenshot _ => true
  | _ => false

/-- Boolean comparison of two file names by parsed numeric key (both keys
must parse). -/
def keyLE (tok a b : String) : Bool :=
  match get_alphanum_key tok a, get_alphanum_key tok b with
  | some ka, some kb => ka ≤ kb
  | _, _ => false

/-- Strict boolean comparison of two file names by parsed numeric key. -/
def keyLT (tok a b : String) : Bool :=
  match get_alphanum_key tok a, get_alphanum_key tok b with
  | some ka, some kb => ka < kb
  | _, _ => false

/-- Lexicographic (alphabetical) order on character lists, the order in
which the downstream encoder's inputs would sort. -/
def charListLt : List Char → List Char → Bool
  | [], [] => false
  | [], _ :: _ => true
  | _ :: _, [] => false
  | c :: cs, d :: ds => if c < d then true else if d < c then false else charListLt cs ds

/-- Value of a big-endian decimal digit list. -/
def decValue : List Nat → Nat
  | [] => 0
  | d :: ds => d * 10 ^ ds.length + decValue ds

/-- The integer-arithmetic `stride` agrees with Python's
round-half-to-even applied to the exact value of `60 / fps`. -/
theorem stride_eq_roundHalfEven (fps : ℕ) :
    stride fps = (roundHalfEven ((60 : ℚ) / (fps : ℚ))).toNat := by
  unfold stride roundHalfEven
  rcases Nat.eq_zero_or_pos fps with h0 | hpos
  · subst h0
    norm_num
  · have hne : fps ≠ 0 := Nat.pos_iff_ne_zero.mp hpos
    have hfQ : (0 : ℚ) < (fps : ℚ) := by exact_mod_cast hpos
    have hrlt : 60 % fps < fps := Nat.mod_lt _ hpos
    have hmul : 60 < (60 / fps + 1) * fps := by
      calc 60 = fps * (60 / fps) + 60 % fps := (Nat.div_add_mod 60 fps).symm
        _ < fps * (60 / fps) + fps := by omega
        _ = (60 / fps + 1) * fps := by ring
    have hfloor : ⌊(60 : ℚ) / (fps : ℚ)⌋ = ((60 / fps : ℕ) : ℤ) := by
      rw [Int.floor_eq_iff]
      constructor
      · exact_mod_cast Nat.cast_div_le
      · push_cast
        rw [div_lt_iff₀ hfQ]
        calc (60 : ℚ) < (((60 / fps + 1) * fps : ℕ) : ℚ) := by exact_mod_cast hmul
          _ = (((60 / fps : ℕ) : ℚ) + 1) * (fps : ℚ) := by push_cast; ring
    have hsplit : (60 : ℚ) / (fps : ℚ) =
        ((60 / fps : ℕ) : ℚ) + ((60 % fps : ℕ) : ℚ) / (fps : ℚ) := by
      field_simp
      calc (60 : ℚ) = ((fps * (60 / fps) + 60 % fps : ℕ) : ℚ) := by
            exact_mod_cast congrArg (Nat.cast (R := ℚ)) (Nat.div_add_mod 60 fps).symm
        _ = ((60 / fps : ℕ) : ℚ) * (fps : ℚ) + ((60 % fps : ℕ) : ℚ) := by push_cast; ring
    have hfract : (60 : ℚ) / (fps : ℚ) - (((60 / fps : ℕ) : ℤ) : ℚ) =
        ((60 % fps : ℕ) : ℚ) / (fps : ℚ) := by
      rw [Int.cast_natCast]
      rw [hsplit]
      ring
    rw [hfloor, hfract]
    have hlt_iff : (((60 % fps : ℕ) : ℚ) / (fps : ℚ) < 1 / 2) ↔ 2 * (60 % fps) < fps := by
      rw [div_lt_div_iff₀ hfQ (by norm_num : (0 : ℚ) < 2)]
      rw [← Nat.cast_lt (α := ℚ)]
      push_cast
      constructor <;> intro h <;> linarith
    have hgt_iff : (1 / 2 < ((60 % fps : ℕ) : ℚ) / (fps : ℚ)) ↔ fps < 2 * (60 % fps) := by
      rw [div_lt_div_iff₀ (by norm_num : (0 : ℚ) < 2) hfQ]
      rw [← Nat.cast_lt (α := ℚ)]
      push_cast
      constructor <;> intro h <;> linarith
    have heven_iff : Even ((60 / fps : ℕ) : ℤ) ↔ (60 / fps) % 2 = 0 := by
      rw [Int.even_coe_nat, Nat.even_iff]
    rw [if_neg hne]
    by_cases h1 : 2 * (60 % fps) < fps
    · rw [if_pos h1, if_pos (hlt_iff.mpr h1), Int.toNat_natCast]
    · rw [if_neg h1, if_neg (fun hc => h1 (hlt_iff.mp hc))]
      by_cases h2 : fps < 2 * (60 % fps)
      · rw [if_pos h2, if_pos (hgt_iff.mpr h2), Int.toNat_natCast_add_one]
      · rw [if_neg h2, if_neg (fun hc => h2 (hgt_iff.mp hc))]
        by_cases h3 : (60 / fps) % 2 = 0
        · rw [if_pos h3, if_pos (heven_iff.mpr h3), Int.toNat_natCast]
        · rw [if_neg h3, if_neg (fun hc => h3 (heven_iff.mp hc)), Int.toNat_natCast_add_one]

theorem insertK_perm (x : Int × String) (l : List (Int × String)) :
    (insertK x l).Perm (x :: l) := by
  induction l with
  | nil => simp [insertK]
  | cons y ys ih =>
    by_cases h : x.1 ≤ y.1
    · simp [insertK, h]
    · rw [insertK, if_neg h]
      exact (ih.cons y).trans (List.Perm.swap x y ys)

theorem sortK_perm (l : List (Int × String)) : (sortK l).Perm l := by
  induction l with
  | nil => simp [sortK]
  | cons x xs ih => exact (insertK_perm x (sortK xs)).trans (ih.cons x)

theorem insertK_pairwise (x : Int × String) (l : List (Int × String))
    (h : l.Pairwise (fun a b => a.1 ≤ b.1)) :
    (insertK x l).Pairwise (fun a b => a.1 ≤ b.1) := by
  induction l with
  | nil => simp [insertK]
  | cons y ys ih =>
    rcases List.pairwise_cons.mp h with ⟨hy, hys⟩
    by_cases hle : x.1 ≤ y.1
    · rw [insertK, if_pos hle]
      refine List.pairwise_cons.mpr ⟨?_, h⟩
      intro z hz
      rcases List.mem_cons.mp hz with rfl | hz'
      · exact hle
      · exact le_trans hle (hy z hz')
    · rw [insertK, if_neg hle]
      refine List.pairwise_cons.mpr ⟨?_, ih hys⟩
      intro z hz
      rcases List.mem_cons.mp ((insertK_perm x ys).mem_iff.mp hz) with rfl | hz'
      · exact le_of_lt (lt_of_not_le hle)
      · exact hy z hz'

theorem sortK_pairwise (l : List (Int × String)) :
    (sortK l).Pairwise (fun a b => a.1 ≤ b.1) := by
  induction l with
  | nil => simp [sortK]
  | cons x xs ih => exact insertK_pairwise x (sortK xs) ih

theorem pairwise_imp_mem {α : Type} {R S : α → α → Prop} :
    ∀ {l : List α}, (∀ a ∈ l, ∀ b ∈ l, R a b → S a b) → l.Pairwise R → l.Pairwise S := by
  intro l
  induction l with
  | nil => intro _ _; exact List.Pairwise.nil
  | cons a as ih =>
    intro himp hp
    rcases List.pairwise_cons.mp hp with ⟨ha, has⟩
    refine List.pairwise_cons.mpr ⟨?_, ?_⟩
    · intro b hb
      exact himp a (List.mem_cons_self a as) b (List.mem_cons_of_mem a hb) (ha b hb)
    · exact ih (fun u hu v hv => himp u (List.mem_cons_of_mem a hu) v (List.mem_cons_of_mem a hv)) has

theorem mapKeys_none_of_mem {α β : Type} (g : α → Option β) :
    ∀ {l : List α} {x : α}, x ∈ l → g x = none → mapKeys g l = none := by
  intro l
  induction l with
  | nil => intro x hx; cases hx
  | cons a as ih =>
    intro x hx hgx
    rcases List.mem_cons.mp hx with rfl | hx'
    · simp [mapKeys, hgx]
    · cases hga : g a with
      | none => simp [mapKeys, hga]
      | some b => simp [mapKeys, hga, ih hx' hgx]

theorem mapKeys_some_forall2 {α β : Type} (g : α → Option β) :
    ∀ {l : List α} {ys : List β},
      mapKeys g l = some ys → List.Forall₂ (fun a b => g a = some b) l ys := by
  intro l
  induction l with
  | nil =>
    intro ys h
    simp only [mapKeys, Option.some.injEq] at h
    subst h
    exact List.Forall₂.nil
  | cons a as ih =>
    intro ys h
    cases hga : g a with
    | none => simp [mapKeys, hga] at h
    | some b =>
      cases has : mapKeys g as with
      | none => simp [mapKeys, hga, has] at h
      | some bs =>
        simp only [mapKeys, hga, has, Option.some.injEq] at h
        subst h
        exact List.Forall₂.cons hga (ih has)

theorem keyed_map_snd {tok : String} :
    ∀ {l : List String} {ys : List (Int × String)},
      List.Forall₂ (fun f p => (get_alphanum_key tok f).map (fun k => (k, f)) = some p) l ys →
      ys.map Prod.snd = l := by
  intro l ys h
  induction h with
  | nil => rfl
  | cons hr _ ih =>
    rcases Option.map_eq_some'.mp hr with ⟨k, _, rfl⟩
    simp [ih]

theorem keyed_key_spec {tok : String} :
    ∀ {l : List String} {ys : List (Int × String)},
      List.Forall₂ (fun f p => (get_alphanum_key tok f).map (fun k => (k, f)) = some p) l ys →
      ∀ p ∈ ys, get_alphanum_key tok p.2 = some p.1 := by
  intro l ys h
  induction h with
  | nil => intro p hp; cases hp
  | cons hr _ ih =>
    intro p hp
    rcases List.mem_cons.mp hp with rfl | hp'
    · rcases Option.map_eq_some'.mp hr with ⟨k, hk, rfl⟩
      simpa using hk
    · exact ih p hp'

theorem keyed_key_map {tok : String} :
    ∀ {l : List String} {ys : List (Int × String)},
      List.Forall₂ (fun f p => (get_alphanum_key tok f).map (fun k => (k, f)) = some p) l ys →
      l.map (get_alphanum_key tok) = ys.map (fun p => some p.1) := by
  intro l ys h
  induction h with
  | nil => rfl
  | cons hr _ ih =>
    rcases Option.map_eq_some'.mp hr with ⟨k, hk, rfl⟩
    simp [hk, ih]

/-- C1 (amended): whenever `get_sorted_files` succeeds, it returns a
permutation of the suffix-filtered entries ordered non-decreasingly by
the parsed numeric key, and the order is strictly ascending whenever the
parsed keys of the filtered entries are pairwise distinct; with duplicate
keys the stable sort keeps enumeration order, so strict ascent fails
(see the counterexample). -/
theorem c1_sorted_by_numeric_key (fs : FS) (fmt tok : String) (out : List String)
    (hok : get_sorted_files fs fmt tok = .ok out) :
    out.Perm (filteredEntries fs fmt) ∧
    out.Pairwise (fun a b => keyLE tok a b = true) ∧
    (((filteredEntries fs fmt).map (get_alphanum_key tok)).Nodup →
      out.Pairwise (fun a b => keyLT tok a b = true)) := by
  unfold get_sorted_files get_sorted_filesT at hok
  by_cases hex : fs.exists_ = false
  · rw [if_pos hex] at hok
    cases hok
  · rw [if_neg hex] at hok
    cases hm : keyedEntries fs fmt tok with
    | none =>
      rw [hm] at hok
      cases hok
    | some keyed =>
      rw [hm] at hok
      replace hok : Except.ok (ε := Err) ((sortK keyed).map Prod.snd) = Except.ok out := hok
      injection hok with hok
      subst hok
      unfold keyedEntries at hm
      have hf2 := mapKeys_some_forall2 _ hm
      have hsnd : keyed.map Prod.snd = filteredEntries fs fmt := keyed_map_snd hf2
      have hkeys := keyed_key_spec hf2
      have hmemkey : ∀ p ∈ sortK keyed, get_alphanum_key tok p.2 = some p.1 :=
        fun p hp => hkeys p ((sortK_perm keyed).mem_iff.mp hp)
      refine ⟨?_, ?_, ?_⟩
      · exact hsnd ▸ ((sortK_perm keyed).map Prod.snd)
      · rw [List.pairwise_map]
        refine pairwise_imp_mem ?_ (sortK_pairwise keyed)
        intro p hp q hq hle
        simp only [keyLE, hmemkey p hp, hmemkey q hq]
        exact decide_eq_true hle
      · intro hnd
        rw [keyed_key_map hf2] at hnd
        have hnd1 : ((keyed.map Prod.fst).map some).Nodup := by
          rw [List.map_map]
          exact hnd
        have hnd2 : (keyed.map Prod.fst).Nodup :=
          (List.nodup_map_iff (Option.some_injective Int)).mp hnd1
        have hnd3 : ((sortK keyed).map Prod.fst).Nodup :=
          (((sortK_perm keyed).map Prod.fst).nodup_iff).mpr hnd2
        have hne : (sortK keyed).Pairwise (fun p q => p.1 ≠ q.1) :=
          List.pairwise_map.mp hnd3
        have hlt : (sortK keyed).Pairwise (fun p q => p.1 < q.1) :=
          ((sortK_pairwise keyed).and hne).imp (fun h => lt_of_le_of_ne h.1 h.2)
        rw [List.pairwise_map]
        refine pairwise_imp_mem ?_ hlt
        intro p hp q hq hpq
        simp only [keyLT, hmemkey p hp, hmemkey q hq]
        exact decide_eq_true hpq

/-- C1 counterexample: with two distinct files carrying the same numeric
index, the returned order is the (stable) enumeration order and the key
sequence `1, 1` is not strictly ascending, refuting the unconditional
"strictly ascending" claim. -/
theorem c1_counterexample :
    get_sorted_files ⟨true, ["b_1.vtk", "a_1.vtk"]⟩ ".vtk" "_" =
        .ok ["b_1.vtk", "a_1.vtk"] ∧
    get_alphanum_key "_" "b_1.vtk" = some 1 ∧
    get_alphanum_key "_" "a_1.vtk" = some 1 ∧
    keyLT "_" "b_1.vtk" "a_1.vtk" = false := by
  exact ⟨by decide, by decide, by decide, by decide⟩

theorem c1_witness :
    (["f_1.vtk", "f_2.vtk", "f_10.vtk"] : List String).Pairwise
      (fun a b => keyLT "_" a b = true) := by
  have h := c1_sorted_by_numeric_key ⟨true, ["f_10.vtk", "f_2.vtk", "f_1.vtk"]⟩ ".vtk" "_"
    ["f_1.vtk", "f_2.vtk", "f_10.vtk"] (by decide)
  exact h.2.2 (by decide)

/-- C2: if the directory exists and contains a matching file whose sort
key does not parse as an integer, `get_sorted_files` raises `ValueError`
and returns no (partial) list. -/
theorem c2_nonnumeric_key_raises (fs : FS) (fmt tok f : String)
    (hex : fs.exists_ = true) (hf : f ∈ fs.entries)
    (hsuf : (pySuffix f == fmt) = true)
    (hkey : get_alphanum_key tok f = none) :
    get_sorted_files fs fmt tok = .error .valueError := by
  have hff : f ∈ filteredEntries fs fmt := List.mem_filter.mpr ⟨hf, hsuf⟩
  have hnone : keyedEntries fs fmt tok = none := by
    unfold keyedEntries
    exact mapKeys_none_of_mem _ hff (by rw [hkey]; rfl)
  unfold get_sorted_files get_sorted_filesT
  rw [if_neg (by simp [hex]), hnone]

theorem c2_witness :
    get_sorted_files ⟨true, ["f_abc.vtk", "f_2.vtk"]⟩ ".vtk" "_" = .error .valueError := by
  exact c2_nonnumeric_key_raises ⟨true, ["f_abc.vtk", "f_2.vtk"]⟩ ".vtk" "_" "f_abc.vtk"
    (by decide) (by decide) (by decide) (by decide)

/-- C3: on a nonexistent directory, `get_sorted_files` raises the
"does not exist" `IOError` and the trace of filesystem calls contains no
`scandir`: the existence check happens first and listing is never
attempted. -/
theorem c3_missing_directory_no_listing (fs : FS) (fmt tok : String)
    (hex : fs.exists_ = false) :
    get_sorted_files fs fmt tok = .error .notFound ∧
    FsOp.scandir ∉ (get_sorted_filesT fs fmt tok).2 := by
  unfold get_sorted_files get_sorted_filesT
  rw [if_pos hex]
  exact ⟨rfl, by decide⟩

theorem c3_witness :
    get_sorted_files ⟨false, ["f_1.vtk"]⟩ ".vtk" "_" = .error .notFound ∧
    FsOp.scandir ∉ (get_sorted_filesT ⟨false, ["f_1.vtk"]⟩ ".vtk" "_").2 := by
  exact c3_missing_directory_no_listing ⟨false, ["f_1.vtk"]⟩ ".vtk" "_" rfl

theorem renderLoop_trace_loopEvents (o : Oracle) (dir tmp : String) (fps : ℕ) :
    ∀ (files : List String) (i : ℕ),
      ∀ e ∈ (renderLoop o dir tmp fps i files).trace, isLoopEvent e = true := by
  intro files
  induction files with
  | nil => intro i e he; simp [renderLoop] at he
  | cons f rest ih =>
    intro i e he
    simp only [renderLoop] at he
    by_cases h0 : stride fps = 0
    · rw [if_pos h0] at he
      simp at he
    · rw [if_neg h0] at he
      by_cases hmod : i % stride fps = 0
      · rw [if_pos hmod] at he
        by_cases hr : o.readFails i
        · rw [if_pos hr] at he
          simp at he
          subst he
          rfl
        · rw [if_neg hr] at he
          by_cases hm : o.addMeshFails i
          · rw [if_pos hm] at he
            simp at he
            rcases he with rfl | rfl <;> rfl
          · rw [if_neg hm] at he
            by_cases hs : o.screenshotFails i
            · rw [if_pos hs] at he
              simp at he
              rcases he with rfl | rfl <;> rfl
            · rw [if_neg hs] at he
              simp only [List.mem_cons] at he
              rcases he with rfl | rfl | rfl | he'
              · rfl
              · rfl
              · rfl
              · exact ih (i + 1) e he'
      · rw [if_neg hmod] at he
        exact ih (i + 1) e he

theorem renderLoop_success_spec (o : Oracle) (dir tmp : String) (fps : ℕ) :
    ∀ (files : List String) (i : ℕ),
      (renderLoop o dir tmp fps i files).err = none →
      (renderLoop o dir tmp fps i files).frames =
        (((List.range files.length).map (fun j => i + j)).filter
            (fun p => p % stride fps == 0)).map (imagePath tmp) ∧
      renderedIndices (renderLoop o dir tmp fps i files).trace =
        ((List.range files.length).map (fun j => i + j)).filter
          (fun p => p % stride fps == 0) := by
  intro files
  induction files with
  | nil =>
    intro i _
    exact ⟨rfl, rfl⟩
  | cons f rest ih =>
    intro i herr
    have hrange : (List.range (rest.length + 1)).map (fun j => i + j) =
        i :: (List.range rest.length).map (fun j => (i + 1) + j) := by
      rw [List.range_succ_eq_map, List.map_cons, List.map_map]
      congr 1
      apply List.map_congr_left
      intro j _
      simp only [Function.comp_apply]
      omega
    simp only [renderLoop] at herr ⊢
    by_cases h0 : stride fps = 0
    · rw [if_pos h0] at herr
      cases herr
    · rw [if_neg h0] at herr ⊢
      by_cases hmod : i % stride fps = 0
      · rw [if_pos hmod] at herr ⊢
        by_cases hr : o.readFails i
        · rw [if_pos hr] at herr
          cases herr
        · rw [if_neg hr] at herr ⊢
          by_cases hm : o.addMeshFails i
          · rw [if_pos hm] at herr
            cases herr
          · rw [if_neg hm] at herr ⊢
            by_cases hs : o.screenshotFails i
            · rw [if_pos hs] at herr
              cases herr
            · rw [if_neg hs] at herr ⊢
              rcases ih (i + 1) herr with ⟨ihf, ihr⟩
              constructor
              · simp only [List.length_cons, hrange, List.filter_cons]
                simp [hmod, ihf]
              · simp only [renderedIndices] at ihr ⊢
                simp only [List.length_cons, hrange, List.filter_cons]
                simp [hmod, ihr]
      · rw [if_neg hmod] at herr ⊢
        rcases ih (i + 1) herr with ⟨ihf, ihr⟩
        constructor
        · rw [ihf]
          simp only [List.length_cons, hrange, List.filter_cons]
          simp [hmod]
        · rw [ihr]
          simp only [List.length_cons, hrange, List.filter_cons]
          simp [hmod]

theorem renderLoop_okOracle_err_none (dir tmp : String) (fps : ℕ) (h0 : stride fps ≠ 0) :
    ∀ (files : List String) (i : ℕ), (renderLoop okOracle dir tmp fps i files).err = none := by
  intro files
  induction files with
  | nil => intro i; rfl
  | cons f rest ih =>
    intro i
    simp only [renderLoop, if_neg h0]
    by_cases hmod : i % stride fps = 0
    · rw [if_pos hmod]
      simp only [okOracle, Bool.false_eq_true, if_false]
      exact ih (i + 1)
    · rw [if_neg hmod]
      exact ih (i + 1)

theorem renderLoop_readMesh_path (o : Oracle) (dir tmp : String) (fps : ℕ) :
    ∀ (files : List String) (i : ℕ) (p : String),
      Event.readMesh p ∈ (renderLoop o dir tmp fps i files).trace →
      ∃ f ∈ files, p = pyJoin dir (pyJoin dir f) := by
  intro files
  induction files with
  | nil => intro i p hp; simp [renderLoop] at hp
  | cons f rest ih =>
    intro i p hp
    simp only [renderLoop] at hp
    by_cases h0 : stride fps = 0
    · rw [if_pos h0] at hp
      simp at hp
    · rw [if_neg h0] at hp
      by_cases hmod : i % stride fps = 0
      · rw [if_pos hmod] at hp
        by_cases hr : o.readFails i
        · rw [if_pos hr] at hp
          simp at hp
          exact ⟨f, List.mem_cons_self f rest, by rw [hp]⟩
        · rw [if_neg hr] at hp
          by_cases hm : o.addMeshFails i
          · rw [if_pos hm] at hp
            simp at hp
            exact ⟨f, List.mem_cons_self f rest, by rw [hp]⟩
          · rw [if_neg hm] at hp
            by_cases hs : o.screenshotFails i
            · rw [if_pos hs] at hp
              simp at hp
              exact ⟨f, List.mem_cons_self f rest, by rw [hp]⟩
            · rw [if_neg hs] at hp
              simp only [List.mem_cons] at hp
              rcases hp with heq | heq | heq | hp'
              · exact ⟨f, List.mem_cons_self f rest, Event.readMesh.inj heq⟩
              · simp at heq
              · simp at heq
              · rcases ih (i + 1) p hp' with ⟨g, hg, hpath⟩
                exact ⟨g, List.mem_cons_of_mem f hg, hpath⟩
      · rw [if_neg hmod] at hp
        rcases ih (i + 1) p hp with ⟨g, hg, hpath⟩
        exact ⟨g, List.mem_cons_of_mem f hg, hpath⟩

theorem tmpFilesAfter_append (xs ys : List Event) :
    tmpFilesAfter (xs ++ ys) =
      List.foldl
        (fun acc e =>
          match e with
          | Event.screenshot p => acc ++ [p]
          | Event.tmpDirRemove => []
          | _ => acc)
        (tmpFilesAfter xs) ys := by
  unfold tmpFilesAfter
  rw [List.foldl_append]

theorem tmpFilesAfter_pre (vd : Bool) : tmpFilesAfter (preTrace vd) = [] := by
  cases vd <;> rfl

theorem plotterClose_not_mem_pre2 (vd : Bool) : Event.plotterClose ∉ pre2Trace vd := by
  cases vd <;> decide

theorem tmpDirCreate_not_mem_pre (vd : Bool) : Event.tmpDirCreate ∉ preTrace vd := by
  cases vd <;> decide

theorem readMesh_not_mem_pre2 (vd : Bool) (p : String) : Event.readMesh p ∉ pre2Trace vd := by
  cases vd <;> simp [pre2Trace, preTrace]

theorem encodeCalls_append (xs ys : List Event) :
    encodeCalls (xs ++ ys) = encodeCalls xs ++ encodeCalls ys := by
  simp [encodeCalls]

theorem renderedIndices_append (xs ys : List Event) :
    renderedIndices (xs ++ ys) = renderedIndices xs ++ renderedIndices ys := by
  simp [renderedIndices]

theorem encodeCalls_pre2 (vd : Bool) : encodeCalls (pre2Trace vd) = [] := by
  cases vd <;> rfl

theorem renderedIndices_pre2 (vd : Bool) : renderedIndices (pre2Trace vd) = [] := by
  cases vd <;> rfl

theorem encodeCalls_loop (o : Oracle) (dir tmp : String) (fps : ℕ) (files : List String)
    (i : ℕ) : encodeCalls (renderLoop o dir tmp fps i files).trace = [] := by
  rw [encodeCalls, List.filterMap_eq_nil_iff]
  intro e he
  have h := renderLoop_trace_loopEvents o dir tmp fps files i e he
  cases e <;> simp_all [isLoopEvent]

theorem plotterClose_not_mem_loop (o : Oracle) (dir tmp : String) (fps : ℕ)
    (files : List String) (i : ℕ) :
    Event.plotterClose ∉ (renderLoop o dir tmp fps i files).trace := by
  intro h
  have := renderLoop_trace_loopEvents o dir tmp fps files i _ h
  simp [isLoopEvent] at this

theorem create_movie_spec_list_err (fs : FS) (dir movie tmp : String) (vd : Bool)
    (fps : ℕ) (o : Oracle) (e : Err)
    (hok : (get_sorted_filesT fs ".vtk" "_").1 = .error e) :
    create_movie_from_vtk fs dir movie vd fps tmp o = ⟨preTrace vd, .error e⟩ := by
  unfold create_movie_from_vtk
  simp only [hok]

theorem create_movie_spec_loop_err (fs : FS) (dir movie tmp : String) (vd : Bool)
    (fps : ℕ) (o : Oracle) (files : List String) (e : Err)
    (hok : (get_sorted_filesT fs ".vtk" "_").1 = .ok files)
    (hL : (renderLoop o dir tmp fps 0 files).err = some e) :
    create_movie_from_vtk fs dir movie vd fps tmp o =
      ⟨pre2Trace vd ++ (renderLoop o dir tmp fps 0 files).trace ++ [Event.tmpDirRemove],
        .error e⟩ := by
  unfold create_movie_from_vtk
  simp only [hok, hL]

theorem create_movie_spec_encode_err (fs : FS) (dir movie tmp : String) (vd : Bool)
    (fps : ℕ) (o : Oracle) (files : List String)
    (hok : (get_sorted_filesT fs ".vtk" "_").1 = .ok files)
    (hL : (renderLoop o dir tmp fps 0 files).err = none)
    (hE : o.encodeFails = true) :
    create_movie_from_vtk fs dir movie vd fps tmp o =
      ⟨pre2Trace vd ++ (renderLoop o dir tmp fps 0 files).trace ++
          [Event.plotterClose,
            Event.encode (renderLoop o dir tmp fps 0 files).frames fps, Event.tmpDirRemove],
        .error .encodeError⟩ := by
  unfold create_movie_from_vtk
  simp only [hok, hL, hE, if_true]

theorem create_movie_spec_ok (fs : FS) (dir movie tmp : String) (vd : Bool)
    (fps : ℕ) (o : Oracle) (files : List String)
    (hok : (get_sorted_filesT fs ".vtk" "_").1 = .ok files)
    (hL : (renderLoop o dir tmp fps 0 files).err = none)
    (hE : o.encodeFails = false) :
    create_movie_from_vtk fs dir movie vd fps tmp o =
      ⟨pre2Trace vd ++ (renderLoop o dir tmp fps 0 files).trace ++
          [Event.plotterClose,
            Event.encode (renderLoop o dir tmp fps 0 files).frames fps,
            Event.writeVideo movie, Event.tmpDirRemove],
        .ok ()⟩ := by
  unfold create_movie_from_vtk
  simp only [hok, hL, hE, Bool.false_eq_true, if_false]

/-- C5 (amended): the plotter is released exactly on runs whose frame
loop completes without an exception — including runs where encoding
subsequently fails — but when mesh loading, actor replacement, or
screenshot capture raises inside the loop (or the sampling test raises
ZeroDivisionError), `plt.close()` is never reached and the plotter is
not released. -/
theorem c5_plotter_release_iff_loop_ok (fs : FS) (dir movie tmp : String) (vd : Bool)
    (fps : ℕ) (o : Oracle) (files : List String)
    (hok : get_sorted_files fs ".vtk" "_" = .ok files) :
    ((renderLoop o dir tmp fps 0 files).err = none →
      Event.plotterClose ∈ (create_movie_from_vtk fs dir movie vd fps tmp o).trace) ∧
    (∀ e, (renderLoop o dir tmp fps 0 files).err = some e →
      Event.plotterClose ∉ (create_movie_from_vtk fs dir movie vd fps tmp o).trace) := by
  have hok' : (get_sorted_filesT fs ".vtk" "_").1 = .ok files := hok
  constructor
  · intro hL
    cases hE : o.encodeFails with
    | true =>
      rw [create_movie_spec_encode_err fs dir movie tmp vd fps o files hok' hL hE]
      simp [List.mem_append]
    | false =>
      rw [create_movie_spec_ok fs dir movie tmp vd fps o files hok' hL hE]
      simp [List.mem_append]
  · intro e hL
    rw [create_movie_spec_loop_err fs dir movie tmp vd fps o files e hok' hL]
    simp only [List.mem_append]
    intro hmem
    rcases hmem with (h1 | h2) | h3
    · exact plotterClose_not_mem_pre2 vd h1
    · exact plotterClose_not_mem_loop o dir tmp fps files 0 h2
    · simp at h3

/-- C5 counterexample: a run in which `pv.read` raises on the first
sampled frame propagates the error but never emits `plotterClose`: the
plotter is not released on this failure path, refuting the unconditional
release claim. -/
theorem c5_counterexample :
    (create_movie_from_vtk ⟨true, ["f_1.vtk"]⟩ "d" "m.mp4" false 10 "t"
        ⟨fun _ => true, fun _ => false, fun _ => false, false⟩).result =
      .error .readError ∧
    Event.plotterClose ∉ (create_movie_from_vtk ⟨true, ["f_1.vtk"]⟩ "d" "m.mp4" false 10 "t"
        ⟨fun _ => true, fun _ => false, fun _ => false, false⟩).trace := by
  exact ⟨by decide, by decide⟩

theorem c5_witness :
    Event.plotterClose ∈ (create_movie_from_vtk ⟨true, ["f_1.vtk"]⟩ "d" "m.mp4" false 10 "t"
      okOracle).trace := by
  have h := c5_plotter_release_iff_loop_ok ⟨true, ["f_1.vtk"]⟩ "d" "m.mp4" "t" false 10
    okOracle ["f_1.vtk"] (by decide)
  exact h.1 (by decide)

/-- C6: on every exit path of `create_movie_from_vtk` — success, listing
failure, a collaborator exception inside the loop, or an encoder
exception — no temporary still image remains afterwards, and whenever
the temporary directory was created it is also removed (the
`with tempfile.TemporaryDirectory()` exit hook). -/
theorem c6_tmp_files_cleaned (fs : FS) (dir movie tmp : String) (vd : Bool) (fps : ℕ)
    (o : Oracle) :
    tmpFilesAfter (create_movie_from_vtk fs dir movie vd fps tmp o).trace = [] ∧
    (Event.tmpDirCreate ∈ (create_movie_from_vtk fs dir movie vd fps tmp o).trace →
      Event.tmpDirRemove ∈ (create_movie_from_vtk fs dir movie vd fps tmp o).trace) := by
  cases hres : (get_sorted_filesT fs ".vtk" "_").1 with
  | error e =>
    rw [create_movie_spec_list_err fs dir movie tmp vd fps o e hres]
    refine ⟨tmpFilesAfter_pre vd, ?_⟩
    intro hcre
    exact absurd hcre (tmpDirCreate_not_mem_pre vd)
  | ok files =>
    cases hL : (renderLoop o dir tmp fps 0 files).err with
    | some e =>
      rw [create_movie_spec_loop_err fs dir movie tmp vd fps o files e hres hL]
      constructor
      · rw [tmpFilesAfter_append]
        rfl
      · intro _
        simp
    | none =>
      cases hE : o.encodeFails with
      | true =>
        rw [create_movie_spec_encode_err fs dir movie tmp vd fps o files hres hL hE]
        constructor
        · rw [tmpFilesAfter_append]
          rfl
        · intro _
          simp
      | false =>
        rw [create_movie_spec_ok fs dir movie tmp vd fps o files hres hL hE]
        constructor
        · rw [tmpFilesAfter_append]
          rfl
        · intro _
          simp

theorem c6_witness :
    tmpFilesAfter (create_movie_from_vtk ⟨true, ["f_1.vtk"]⟩ "d" "m" false 10 "t"
      okOracle).trace = [] :=
  (c6_tmp_files_cleaned ⟨true, ["f_1.vtk"]⟩ "d" "m" "t" false 10 okOracle).1

/-- C7: on every successful run the encoder is invoked exactly once, with
the still-image paths listed in sampling order (ascending source
position, i.e. snapshot temporal order) and with the configured fps. -/
theorem c7_encoder_once_ordered (fs : FS) (dir movie tmp : String) (vd : Bool) (fps : ℕ)
    (o : Oracle) (files : List String)
    (hok : get_sorted_files fs ".vtk" "_" = .ok files)
    (hres : (create_movie_from_vtk fs dir movie vd fps tmp o).result = .ok ()) :
    encodeCalls (create_movie_from_vtk fs dir movie vd fps tmp o).trace =
      [((sampledPositions files.length fps).map (imagePath tmp), fps)] := by
  have hok' : (get_sorted_filesT fs ".vtk" "_").1 = .ok files := hok
  cases hL : (renderLoop o dir tmp fps 0 files).err with
  | some e =>
    rw [create_movie_spec_loop_err fs dir movie tmp vd fps o files e hok' hL] at hres
    cases hres
  | none =>
    cases hE : o.encodeFails with
    | true =>
      rw [create_movie_spec_encode_err fs dir movie tmp vd fps o files hok' hL hE] at hres
      cases hres
    | false =>
      rw [create_movie_spec_ok fs dir movie tmp vd fps o files hok' hL hE]
      rw [encodeCalls_append, encodeCalls_append, encodeCalls_pre2, encodeCalls_loop]
      have hframes := (renderLoop_success_spec o dir tmp fps files 0 hL).1
      simp only [List.nil_append]
      show [((renderLoop o dir tmp fps 0 files).frames, fps)] = _
      rw [hframes]
      simp [sampledPositions, Nat.zero_add]

theorem c7_witness :
    encodeCalls (create_movie_from_vtk ⟨true, ["f_1.vtk", "f_2.vtk"]⟩ "d" "m.mp4" false 60 "t"
        okOracle).trace =
      [((sampledPositions 2 60).map (imagePath "t"), 60)] := by
  exact c7_encoder_once_ordered ⟨true, ["f_1.vtk", "f_2.vtk"]⟩ "d" "m.mp4" "t" false 60
    okOracle ["f_1.vtk", "f_2.vtk"] (by decide) (by decide)

/-- C4: with all collaborators succeeding and a nonzero stride, the frame
loop renders exactly the snapshots at positions p with
p % round(60/fps) == 0; for fps 10 the stride is 6 and 100 files yield
exactly the 17 positions 0, 6, ..., 96; for fps 60 the stride is 1 and
every position is rendered. -/
theorem c4_frame_sampling :
    (∀ (fs : FS) (dir movie tmp : String) (vd : Bool) (fps : ℕ) (files : List String),
      get_sorted_files fs ".vtk" "_" = .ok files → stride fps ≠ 0 →
      renderedIndices (create_movie_from_vtk fs dir movie vd fps tmp okOracle).trace =
        sampledPositions files.length fps) ∧
    stride 10 = 6 ∧
    sampledPositions 100 10 =
      [0, 6, 12, 18, 24, 30, 36, 42, 48, 54, 60, 66, 72, 78, 84, 90, 96] ∧
    (sampledPositions 100 10).length = 17 ∧
    stride 60 = 1 ∧
    sampledPositions 100 60 = List.range 100 := by
  refine ⟨?_, by decide, by decide, by decide, by decide, by decide⟩
  intro fs dir movie tmp vd fps files hok h0
  have hok' : (get_sorted_filesT fs ".vtk" "_").1 = .ok files := hok
  have hL := renderLoop_okOracle_err_none dir tmp fps h0 files 0
  rw [create_movie_spec_ok fs dir movie tmp vd fps okOracle files hok' hL rfl]
  rw [renderedIndices_append, renderedIndices_append, renderedIndices_pre2]
  have hidx := (renderLoop_success_spec okOracle dir tmp fps files 0 hL).2
  rw [hidx]
  simp [renderedIndices, sampledPositions, Nat.zero_add]

theorem c4_witness :
    renderedIndices (create_movie_from_vtk ⟨true, ["f_1.vtk", "f_2.vtk", "f_3.vtk"]⟩ "d" "m"
        false 10 "t" okOracle).trace = sampledPositions 3 10 := by
  exact c4_frame_sampling.1 ⟨true, ["f_1.vtk", "f_2.vtk", "f_3.vtk"]⟩ "d" "m" "t" false 10
    ["f_1.vtk", "f_2.vtk", "f_3.vtk"] (by decide) (by decide)

theorem stride_eq_zero_of_ge_120 (fps : ℕ) (h : 120 ≤ fps) : stride fps = 0 := by
  rcases eq_or_lt_of_le h with heq | hgt
  · rw [← heq]
    decide
  · have h60 : 60 < fps := by omega
    unfold stride
    rw [Nat.mod_eq_of_lt h60, Nat.div_eq_of_lt h60]
    rw [if_neg (by omega : ¬fps = 0)]
    rw [if_pos (by omega : 2 * 60 < fps)]

theorem screenshot_not_mem_pre2 (vd : Bool) (p : String) :
    Event.screenshot p ∉ pre2Trace vd := by
  cases vd <;> simp [pre2Trace, preTrace]

/-- C9: for every fps ≥ 120 the computed stride `int(round(60/fps))` is 0
(for fps = 120 because round-half-to-even sends 0.5 to 0), so with at
least one matching file the first loop iteration raises
ZeroDivisionError at the sampling test, before any mesh is read or any
frame rendered. -/
theorem c9_high_fps_zero_division (fs : FS) (dir movie tmp : String) (vd : Bool)
    (fps : ℕ) (o : Oracle) (f : String) (rest : List String)
    (hfps : 120 ≤ fps)
    (hok : get_sorted_files fs ".vtk" "_" = .ok (f :: rest)) :
    (create_movie_from_vtk fs dir movie vd fps tmp o).result = .error .zeroDivision ∧
    renderedIndices (create_movie_from_vtk fs dir movie vd fps tmp o).trace = [] ∧
    (∀ p, Event.readMesh p ∉ (create_movie_from_vtk fs dir movie vd fps tmp o).trace) ∧
    (∀ p, Event.screenshot p ∉ (create_movie_from_vtk fs dir movie vd fps tmp o).trace) := by
  have hok' : (get_sorted_filesT fs ".vtk" "_").1 = .ok (f :: rest) := hok
  have hs := stride_eq_zero_of_ge_120 fps hfps
  have hLoop : renderLoop o dir tmp fps 0 (f :: rest) = ⟨[], [], some .zeroDivision⟩ := by
    simp [renderLoop, hs]
  have hL : (renderLoop o dir tmp fps 0 (f :: rest)).err = some .zeroDivision := by
    rw [hLoop]
  rw [create_movie_spec_loop_err fs dir movie tmp vd fps o (f :: rest) .zeroDivision hok' hL]
  refine ⟨rfl, ?_, ?_, ?_⟩
  · rw [renderedIndices_append, renderedIndices_append, renderedIndices_pre2, hLoop]
    rfl
  · intro p hp
    rw [hLoop] at hp
    simp only [List.mem_append] at hp
    rcases hp with (h1 | h2) | h3
    · exact readMesh_not_mem_pre2 vd p h1
    · simp at h2
    · simp at h3
  · intro p hp
    rw [hLoop] at hp
    simp only [List.mem_append] at hp
    rcases hp with (h1 | h2) | h3
    · exact screenshot_not_mem_pre2 vd p h1
    · simp at h2
    · simp at h3

theorem c9_witness :
    (create_movie_from_vtk ⟨true, ["f_1.vtk"]⟩ "d" "m" false 120 "t" okOracle).result =
      .error .zeroDivision :=
  (c9_high_fps_zero_division ⟨true, ["f_1.vtk"]⟩ "d" "m" "t" false 120 okOracle
    "f_1.vtk" [] (by decide) (by decide)).1

theorem string_toList_append (a b : String) : (a ++ b).toList = a.toList ++ b.toList :=
  String.data_append a b

theorem toList_ne_nil_of_ne_empty (s : String) (h : s ≠ "") : s.toList ≠ [] := by
  intro hc
  apply h
  cases s with
  | mk data =>
    have hdata : data = [] := hc
    subst hdata
    rfl

theorem pyJoin_absorb_abs (dir s : String) (hs : s.toList.head? = some '/') :
    pyJoin dir s = s := by
  unfold pyJoin
  rw [if_pos hs]

theorem pyJoin_head_of_abs_dir (dir f : String) (hd : dir.toList.head? = some '/') :
    (pyJoin dir f).toList.head? = some '/' := by
  have hdir_ne : dir.toList ≠ [] := by
    intro hc
    rw [hc] at hd
    cases hd
  unfold pyJoin
  by_cases hf : f.toList.head? = some '/'
  · rw [if_pos hf]
    exact hf
  · rw [if_neg hf]
    by_cases ha : dir = "" ∨ dir.toList.getLast? = some '/'
    · rw [if_pos ha]
      rw [string_toList_append, List.head?_append_of_ne_nil _ hdir_ne]
      exact hd
    · rw [if_neg ha]
      rw [string_toList_append]
      rw [List.head?_append_of_ne_nil _
        (by rw [string_toList_append]; simp : (dir ++ "/").toList ≠ [])]
      rw [string_toList_append, List.head?_append_of_ne_nil _ hdir_ne]
      exact hd

theorem pyJoin_rel (dir f : String) (hne : dir ≠ "")
    (hlast : dir.toList.getLast? ≠ some '/') (hf : f.toList.head? ≠ some '/') :
    pyJoin dir f = dir ++ "/" ++ f := by
  unfold pyJoin
  rw [if_neg hf]
  rw [if_neg (by push_neg; exact ⟨hne, hlast⟩)]

/-- C10: every path handed to `pv.read` is
`os.path.join(vtk_output_dir, entry)` where the scandir entry's fspath is
itself `os.path.join(vtk_output_dir, name)`; for an absolute directory
the double join collapses to the snapshot's actual path, while for a
relative directory (nonempty, no trailing slash, relative entry name)
the directory component is duplicated. -/
theorem c10_pv_read_path :
    (∀ (fs : FS) (dir movie tmp : String) (vd : Bool) (fps : ℕ) (o : Oracle)
        (files : List String) (p : String),
      get_sorted_files fs ".vtk" "_" = .ok files →
      Event.readMesh p ∈ (create_movie_from_vtk fs dir movie vd fps tmp o).trace →
      ∃ f ∈ files, p = pyJoin dir (pyJoin dir f)) ∧
    (∀ dir f : String, dir.toList.head? = some '/' →
      pyJoin dir (pyJoin dir f) = pyJoin dir f) ∧
    (∀ dir f : String, dir ≠ "" → dir.toList.head? ≠ some '/' →
      dir.toList.getLast? ≠ some '/' → f.toList.head? ≠ some '/' →
      pyJoin dir (pyJoin dir f) = dir ++ "/" ++ dir ++ "/" ++ f) := by
  refine ⟨?_, ?_, ?_⟩
  · intro fs dir movie tmp vd fps o files p hok hp
    have hok' : (get_sorted_filesT fs ".vtk" "_").1 = .ok files := hok
    cases hL : (renderLoop o dir tmp fps 0 files).err with
    | some e =>
      rw [create_movie_spec_loop_err fs dir movie tmp vd fps o files e hok' hL] at hp
      simp only [List.mem_append] at hp
      rcases hp with (h1 | h2) | h3
      · exact absurd h1 (readMesh_not_mem_pre2 vd p)
      · exact renderLoop_readMesh_path o dir tmp fps files 0 p h2
      · simp at h3
    | none =>
      cases hE : o.encodeFails with
      | true =>
        rw [create_movie_spec_encode_err fs dir movie tmp vd fps o files hok' hL hE] at hp
        simp only [List.mem_append] at hp
        rcases hp with (h1 | h2) | h3
        · exact absurd h1 (readMesh_not_mem_pre2 vd p)
        · exact renderLoop_readMesh_path o dir tmp fps files 0 p h2
        · simp at h3
      | false =>
        rw [create_movie_spec_ok fs dir movie tmp vd fps o files hok' hL hE] at hp
        simp only [List.mem_append] at hp
        rcases hp with (h1 | h2) | h3
        · exact absurd h1 (readMesh_not_mem_pre2 vd p)
        · exact renderLoop_readMesh_path o dir tmp fps files 0 p h2
        · simp at h3
  · intro dir f hd
    exact pyJoin_absorb_abs dir (pyJoin dir f) (pyJoin_head_of_abs_dir dir f hd)
  · intro dir f hne hd hlast hf
    have hdir_ne : dir.toList ≠ [] := toList_ne_nil_of_ne_empty dir hne
    have hinner : pyJoin dir f = dir ++ "/" ++ f := pyJoin_rel dir f hne hlast hf
    have hhead : (dir ++ "/" ++ f).toList.head? = dir.toList.head? := by
      rw [string_toList_append]
      rw [List.head?_append_of_ne_nil _
        (by rw [string_toList_append]; simp : (dir ++ "/").toList ≠ [])]
      rw [string_toList_append, List.head?_append_of_ne_nil _ hdir_ne]
    have houter : pyJoin dir (dir ++ "/" ++ f) = dir ++ "/" ++ (dir ++ "/" ++ f) := by
      apply pyJoin_rel dir (dir ++ "/" ++ f) hne hlast
      rw [hhead]
      exact hd
    rw [hinner, houter]
    simp [String.append_assoc]

theorem c10_witness :
    pyJoin "/out" (pyJoin "/out" "f_1.vtk") = pyJoin "/out" "f_1.vtk" ∧
    pyJoin "out" (pyJoin "out" "f_1.vtk") = "out" ++ "/" ++ "out" ++ "/" ++ "f_1.vtk" := by
  constructor
  · exact c10_pv_read_path.2.1 "/out" "f_1.vtk" (by decide)
  · exact c10_pv_read_path.2.2 "out" "f_1.vtk" (by decide) (by decide) (by decide) (by decide)

theorem charListLt_irrefl (l : List Char) : charListLt l l = false := by
  induction l with
  | nil => rfl
  | cons c cs ih => simp [charListLt, lt_irrefl, ih]

theorem charListLt_append_left (p x y : List Char) :
    charListLt (p ++ x) (p ++ y) = charListLt x y := by
  induction p with
  | nil => rfl
  | cons c cs ih => simp [charListLt, lt_irrefl, ih]

theorem charListLt_append_right (s : List Char) :
    ∀ (x y : List Char), x.length = y.length →
      charListLt (x ++ s) (y ++ s) = charListLt x y := by
  intro x
  induction x with
  | nil =>
    intro y hlen
    cases y with
    | nil => simpa [charListLt] using charListLt_irrefl s
    | cons d ds => simp at hlen
  | cons c cs ih =>
    intro y hlen
    cases y with
    | nil => simp at hlen
    | cons d ds =>
      have hlen' : cs.length = ds.length := by simpa using hlen
      simp only [List.cons_append, charListLt, List.append_eq]
      rw [ih ds hlen']

theorem digitChar_lt_iff : ∀ d < 10, ∀ e < 10, (digitChar d < digitChar e ↔ d < e) := by
  decide

theorem decValue_lt_pow (ds : List Nat) (h : ∀ x ∈ ds, x < 10) :
    decValue ds < 10 ^ ds.length := by
  induction ds with
  | nil => simp [decValue]
  | cons d rest ih =>
    have hd : d < 10 := h d (List.mem_cons_self _ _)
    have hr := ih (fun x hx => h x (List.mem_cons_of_mem _ hx))
    simp only [decValue, List.length_cons, pow_succ]
    calc d * 10 ^ rest.length + decValue rest
        < d * 10 ^ rest.length + 10 ^ rest.length := by omega
      _ = (d + 1) * 10 ^ rest.length := by ring
      _ ≤ 10 * 10 ^ rest.length := Nat.mul_le_mul_right _ (by omega)
      _ = 10 ^ rest.length * 10 := by ring

theorem decValue_head_lt (d e : Nat) (ds es : List Nat) (hlen : ds.length = es.length)
    (hds : ∀ x ∈ ds, x < 10) (hlt : d < e) :
    decValue (d :: ds) < decValue (e :: es) := by
  simp only [decValue]
  have h1 : decValue ds < 10 ^ ds.length := decValue_lt_pow ds hds
  calc d * 10 ^ ds.length + decValue ds
      < d * 10 ^ ds.length + 10 ^ ds.length := by omega
    _ = (d + 1) * 10 ^ ds.length := by ring
    _ ≤ e * 10 ^ ds.length := Nat.mul_le_mul_right _ (by omega)
    _ = e * 10 ^ es.length := by rw [hlen]
    _ ≤ e * 10 ^ es.length + decValue es := by omega

theorem charListLt_digits (ds : List Nat) :
    ∀ (es : List Nat), ds.length = es.length →
      (∀ x ∈ ds, x < 10) → (∀ x ∈ es, x < 10) →
      (charListLt (ds.map digitChar) (es.map digitChar) = true ↔
        decValue ds < decValue es) := by
  induction ds with
  | nil =>
    intro es hlen _ _
    cases es with
    | nil => simp [charListLt, decValue]
    | cons e es' => simp at hlen
  | cons d ds' ih =>
    intro es hlen hds hes
    cases es with
    | nil => simp at hlen
    | cons e es' =>
      have hlen' : ds'.length = es'.length := by simpa using hlen
      have hd : d < 10 := hds d (List.mem_cons_self _ _)
      have he : e < 10 := hes e (List.mem_cons_self _ _)
      have hds' : ∀ x ∈ ds', x < 10 := fun x hx => hds x (List.mem_cons_of_mem _ hx)
      have hes' : ∀ x ∈ es', x < 10 := fun x hx => hes x (List.mem_cons_of_mem _ hx)
      simp only [List.map_cons, charListLt]
      rcases Nat.lt_trichotomy d e with hlt | heq | hgt
      · rw [if_pos ((digitChar_lt_iff d hd e he).mpr hlt)]
        simp only [true_iff]
        exact decValue_head_lt d e ds' es' hlen' hds' hlt
      · subst heq
        rw [if_neg (lt_irrefl _), if_neg (lt_irrefl _)]
        rw [ih es' hlen' hds' hes']
        simp [decValue, hlen']
      · have hnlt : ¬ digitChar d < digitChar e := fun hc =>
          absurd ((digitChar_lt_iff d hd e he).mp hc) (by omega)
        rw [if_neg hnlt, if_pos ((digitChar_lt_iff e he d hd).mpr hgt)]
        have hgtval := decValue_head_lt e d es' ds' hlen'.symm hes' hgt
        constructor
        · intro hc
          cases hc
        · intro hc
          omega

theorem pyStrAux_eq_digits :
    ∀ (fuel n : Nat) (acc : List Nat), n ≤ fuel →
      pyStrAux fuel n acc = (if n = 0 then [0] else (Nat.digits 10 n).reverse) ++ acc := by
  intro fuel
  induction fuel with
  | zero =>
    intro n acc hn
    have h0 : n = 0 := Nat.le_zero.mp hn
    subst h0
    rfl
  | succ fuel ih =>
    intro n acc hn
    rw [pyStrAux]
    by_cases h10 : n < 10
    · rw [if_pos h10]
      by_cases h0 : n = 0
      · subst h0
        rfl
      · rw [if_neg h0]
        rw [Nat.digits_def' (by norm_num : (1 : ℕ) < 10) (Nat.pos_of_ne_zero h0)]
        rw [Nat.mod_eq_of_lt h10, Nat.div_eq_of_lt h10]
        simp
    · rw [if_neg h10]
      have hn0 : n ≠ 0 := by omega
      have hd10 : n / 10 < n := Nat.div_lt_self (Nat.pos_of_ne_zero hn0) (by norm_num)
      have hdiv : n / 10 ≤ fuel := by omega
      rw [ih (n / 10) (n % 10 :: acc) hdiv]
      have hq0 : n / 10 ≠ 0 := by
        have h10le : 10 ≤ n := by omega
        have hdd := Nat.div_le_div_right (c := 10) h10le
        omega
      rw [if_neg hq0, if_neg hn0]
      rw [Nat.digits_def' (by norm_num : (1 : ℕ) < 10) (Nat.pos_of_ne_zero hn0)]
      simp

theorem pyStr_eq (n : Nat) :
    pyStr n = if n = 0 then [0] else (Nat.digits 10 n).reverse := by
  unfold pyStr
  rw [pyStrAux_eq_digits (n + 1) n [] (by omega)]
  simp

theorem pyStr_digits_lt (n : Nat) : ∀ d ∈ pyStr n, d < 10 := by
  intro d hd
  rw [pyStr_eq] at hd
  by_cases h0 : n = 0
  · rw [if_pos h0] at hd
    simp at hd
    omega
  · rw [if_neg h0] at hd
    rw [List.mem_reverse] at hd
    exact Nat.digits_lt_base (by norm_num) hd

theorem pyStr_length_le (n : Nat) (h : n ≤ 99999) : (pyStr n).length ≤ 5 := by
  rw [pyStr_eq]
  by_cases h0 : n = 0
  · simp [h0]
  · rw [if_neg h0, List.length_reverse]
    rw [Nat.digits_len 10 n (by norm_num) h0]
    have hlog : Nat.log 10 n < 5 :=
      (Nat.lt_pow_iff_log_lt (by norm_num) h0).mp (by omega)
    omega

theorem decValue_append_singleton (xs : List Nat) (d : Nat) :
    decValue (xs ++ [d]) = 10 * decValue xs + d := by
  induction xs with
  | nil => simp [decValue]
  | cons c cs ih =>
    simp only [List.cons_append, List.append_eq, decValue, ih, List.length_append,
      List.length_cons, List.length_nil, pow_succ, pow_zero]
    ring

theorem decValue_reverse_digits (l : List Nat) :
    decValue l.reverse = Nat.ofDigits 10 l := by
  induction l with
  | nil => simp [decValue]
  | cons d ds ih =>
    rw [List.reverse_cons, decValue_append_singleton, ih, Nat.ofDigits_cons]
    ring

theorem decValue_pyStr (n : Nat) : decValue (pyStr n) = n := by
  rw [pyStr_eq]
  by_cases h0 : n = 0
  · simp [h0, decValue]
  · rw [if_neg h0, decValue_reverse_digits]
    exact_mod_cast Nat.ofDigits_digits 10 n

theorem decValue_replicate_zero (k : Nat) (ds : List Nat) :
    decValue (List.replicate k 0 ++ ds) = decValue ds := by
  induction k with
  | zero => simp
  | succ k ih => simp [List.replicate_succ, decValue, ih]

theorem decValue_pyZfill (w : Nat) (ds : List Nat) :
    decValue (pyZfill w ds) = decValue ds := by
  unfold pyZfill
  exact decValue_replicate_zero _ _

theorem pyZfill_length (w : Nat) (ds : List Nat) (h : ds.length ≤ w) :
    (pyZfill w ds).length = w := by
  unfold pyZfill
  simp
  omega

theorem pyZfill_digits_lt (w n : Nat) : ∀ d ∈ pyZfill w (pyStr n), d < 10 := by
  intro d hd
  rcases List.mem_append.mp hd with h | h
  · rw [List.eq_of_mem_replicate h]
    norm_num
  · exact pyStr_digits_lt n d h

/-- C8 (amended): the temporary image name embeds the snapshot's source
position zero-padded to width exactly five, so every name has 15
characters and alphabetical order equals temporal order while all
positions stay at or below 99999; positions of 100000 or more silently
produce longer names with no failure (see the counterexample), where
alphabetical order can invert. -/
theorem c8_image_names_ordered (i j : Nat) (hij : i < j) (hj : j ≤ 99999) :
    charListLt (imageName i).toList (imageName j).toList = true ∧
    (imageName i).toList.length = 15 := by
  have hi : i ≤ 99999 := by omega
  have hleni : (pyZfill 5 (pyStr i)).length = 5 := pyZfill_length 5 _ (pyStr_length_le i hi)
  have hlenj : (pyZfill 5 (pyStr j)).length = 5 := pyZfill_length 5 _ (pyStr_length_le j hj)
  have hdata : ∀ n : Nat, (imageName n).toList =
      "frame_".toList ++ ((pyZfill 5 (pyStr n)).map digitChar ++ ".png".toList) := by
    intro n
    unfold imageName
    rw [string_toList_append, string_toList_append, List.append_assoc]
    rfl
  constructor
  · rw [hdata i, hdata j, charListLt_append_left]
    rw [charListLt_append_right ".png".toList _ _
      (by rw [List.length_map, List.length_map, hleni, hlenj])]
    rw [charListLt_digits _ _ (by rw [hleni, hlenj])
      (pyZfill_digits_lt 5 i) (pyZfill_digits_lt 5 j)]
    rw [decValue_pyZfill, decValue_pyZfill, decValue_pyStr, decValue_pyStr]
    exact hij
  · rw [hdata i]
    simp [List.length_append, List.length_map, hleni]

/-- C8 counterexample: with fps 10 the stride is 6, so source positions
99996 and 100002 are both sampled while the run has produced only about
16668 sampled frames (well under 99,999); `str(100002).zfill(5)` silently
exceeds the five-digit width and the later frame's image name sorts
alphabetically before the earlier one, refuting both the "fails loudly"
part and the ordering-up-to-99,999-sampled-frames part. -/
theorem c8_counterexample :
    stride 10 = 6 ∧ 99996 % 6 = 0 ∧ 100002 % 6 = 0 ∧ 100002 / 6 + 1 ≤ 99999 ∧
    charListLt (imageName 100002).toList (imageName 99996).toList = true ∧
    imageName 100002 = "frame_100002.png" := by
  exact ⟨by decide, by decide, by decide, by decide, by decide, by decide⟩

theorem c8_witness :
    charListLt (imageName 0).toList (imageName 1).toList = true ∧
    (imageName 0).toList.length = 15 :=
  c8_image_names_ordered 0 1 (by decide) (by decide)
